import Mathlib

/-!
Verification development for the RayCastEngine repository.

The C++ source (a 2.5D raycasting renderer) is shallowly embedded here.
Machine `f32` arithmetic is idealised as exact rational arithmetic `ℚ`,
except where a claim is specifically about float division by zero (a small
model of IEEE signed infinities and NaN comparisons is used there) or where
the source calls transcendental functions (`cosf`/`sinf`/`tanf`), which are
modelled with `Real.cos`/`Real.sin`/`Real.tan`.

Each definition carries a comment naming the source function it embeds.
-/

namespace RayCast

/-- Embeds `struct Vec3` (source part_000 lines 14-47): three `f32`
components, idealised as rationals. -/
@[ext]
structure Vec3 where
  x : ℚ
  y : ℚ
  z : ℚ
deriving DecidableEq

namespace Vec3

/-- Componentwise addition, `Vec3::operator +` (line 42). -/
def add (a b : Vec3) : Vec3 := ⟨a.x + b.x, a.y + b.y, a.z + b.z⟩

/-- Componentwise subtraction, `Vec3::operator -` (line 43). -/
def sub (a b : Vec3) : Vec3 := ⟨a.x - b.x, a.y - b.y, a.z - b.z⟩

/-- Scalar multiplication, `Vec3::operator *(f32)` (line 45). -/
def scale (a : Vec3) (s : ℚ) : Vec3 := ⟨a.x * s, a.y * s, a.z * s⟩

instance : Add Vec3 := ⟨add⟩
instance : Sub Vec3 := ⟨sub⟩

@[simp] theorem add_x (a b : Vec3) : (a + b).x = a.x + b.x := rfl
@[simp] theorem add_y (a b : Vec3) : (a + b).y = a.y + b.y := rfl
@[simp] theorem add_z (a b : Vec3) : (a + b).z = a.z + b.z := rfl
@[simp] theorem sub_x (a b : Vec3) : (a - b).x = a.x - b.x := rfl
@[simp] theorem sub_y (a b : Vec3) : (a - b).y = a.y - b.y := rfl
@[simp] theorem sub_z (a b : Vec3) : (a - b).z = a.z - b.z := rfl
@[simp] theorem scale_x (a : Vec3) (s : ℚ) : (a.scale s).x = a.x * s := rfl
@[simp] theorem scale_y (a : Vec3) (s : ℚ) : (a.scale s).y = a.y * s := rfl
@[simp] theorem scale_z (a : Vec3) (s : ℚ) : (a.scale s).z = a.z * s := rfl

@[simp] theorem mk_add_mk (a b c d e f : ℚ) :
    (⟨a, b, c⟩ + ⟨d, e, f⟩ : Vec3) = ⟨a + d, b + e, c + f⟩ := rfl
@[simp] theorem mk_sub_mk (a b c d e f : ℚ) :
    (⟨a, b, c⟩ - ⟨d, e, f⟩ : Vec3) = ⟨a - d, b - e, c - f⟩ := rfl
@[simp] theorem mk_scale (a b c s : ℚ) :
    (⟨a, b, c⟩ : Vec3).scale s = ⟨a * s, b * s, c * s⟩ := rfl

/-- Dot product, `Vec3::dot` (line 21). -/
def dot (a b : Vec3) : ℚ := a.x * b.x + a.y * b.y + a.z * b.z

@[simp] theorem mk_dot_mk (a b c d e f : ℚ) :
    ((⟨a, b, c⟩ : Vec3).dot ⟨d, e, f⟩) = a * d + b * e + c * f := rfl

/-- Cross product, `Vec3::cross` (lines 23-25). -/
def cross (a b : Vec3) : Vec3 :=
  ⟨a.y * b.z - a.z * b.y, a.z * b.x - a.x * b.z, a.x * b.y - a.y * b.x⟩

@[simp] theorem mk_cross_mk (a b c d e f : ℚ) :
    ((⟨a, b, c⟩ : Vec3).cross ⟨d, e, f⟩) =
      ⟨b * f - c * e, c * d - a * f, a * e - b * d⟩ := rfl

/-- Squared Euclidean length; the source's `Vec3::length` (line 27) is
`sqrt (dot v v)`, so comparisons `length < r` are embedded as
`lenSq < r ^ 2` (equivalent for nonnegative `r`, see `lenSq_lt_sq_iff`). -/
def lenSq (a : Vec3) : ℚ := a.dot a

theorem lenSq_nonneg (a : Vec3) : 0 ≤ a.lenSq := by
  simp only [lenSq, dot]
  nlinarith [mul_self_nonneg a.x, mul_self_nonneg a.y, mul_self_nonneg a.z]

theorem lenSq_eq_zero_iff (a : Vec3) : a.lenSq = 0 ↔ a = ⟨0, 0, 0⟩ := by
  simp only [lenSq, dot]
  constructor
  · intro h
    have hx : a.x = 0 := by
      nlinarith [mul_self_nonneg a.x, mul_self_nonneg a.y, mul_self_nonneg a.z]
    have hy : a.y = 0 := by
      nlinarith [mul_self_nonneg a.x, mul_self_nonneg a.y, mul_self_nonneg a.z]
    have hz : a.z = 0 := by
      nlinarith [mul_self_nonneg a.x, mul_self_nonneg a.y, mul_self_nonneg a.z]
    ext <;> simp [hx, hy, hz]
  · intro h
    rw [h]
    ring

/-- Justifies embedding the float comparison `v.length() < r` as
`v.lenSq < r ^ 2`: with exact arithmetic they agree for nonnegative radii. -/
theorem lenSq_lt_sq_iff (a : Vec3) (r : ℚ) (hr : 0 < r) :
    a.lenSq < r ^ 2 ↔ Real.sqrt a.lenSq < r := by
  have hr' : (0 : ℝ) < (r : ℝ) := by exact_mod_cast hr
  rw [Real.sqrt_lt' hr']
  constructor
  · intro h
    exact_mod_cast h
  · intro h
    exact_mod_cast h

end Vec3

/-- Perpendicular of a 2D vector, `Vec3(-v.y, v.x, 0)`; this is the value
line 64 builds for the ray direction, and the value the documentation says
the hit normal should be. -/
def perpQ (v : Vec3) : Vec3 := ⟨-v.y, v.x, 0⟩

/-- Data returned by a successful `raySeg` call: hit position, ray
parameter `t` and segment parameter `u` (source out-parameters
`hit`, `t`, `u`; the `norm` out-parameter is modelled by `raySegNorm`
below because the source computes it with a different constructor). -/
structure RayHit where
  pos : Vec3
  t : ℚ
  u : ℚ
deriving DecidableEq

/-- Embeds `raySeg` (source part_000 lines 58-78) under exact rational
arithmetic. The source divides by `d23 = v2.dot(v3)` unconditionally; `ℚ`
division is total with `q / 0 = 0`, mirroring the unguarded source text.
The IEEE behaviour of the zero-denominator case is modelled separately by
`raySegIEEE`. -/
def raySeg (o d a b : Vec3) : Option RayHit :=
  let v1 := o - a
  let v2 := b - a
  let v3 : Vec3 := ⟨-d.y, d.x, 0⟩
  let d23 := v2.dot v3
  let t1 := (v2.cross v1).z / d23
  let t2 := v1.dot v3 / d23
  if 0 ≤ t1 ∧ 0 ≤ t2 ∧ t2 ≤ 1 then
    some ⟨⟨a.x + v2.x * t2, a.y + v2.y * t2, 0⟩, t1, t2⟩
  else
    none

/-- Conversion of an integer to `u32`, modelled as two's-complement wrap
modulo `2^32`. The source converts `::floor(u)` (an `f32`) straight to
`u32` (part_000 lines 103-104); for negative values ISO C++ leaves this
undefined, and this definition fixes the de-facto x86-64 behaviour
(`cvttss2si` into a 64-bit register truncated to 32 bits). -/
def toU32 (z : ℤ) : ℕ := (z % (2 ^ 32)).toNat

/-- Embeds `class Texture` (part_000 lines 83-132): a width, a height and
a flat RGB byte buffer (`m_pixels`, bytes in 0..255 row-major). -/
structure TextureQ where
  width : ℕ
  height : ℕ
  pixels : List ℕ
deriving DecidableEq

namespace TextureQ

/-- Embeds `Texture::get` (part_000 lines 117-127): a zero-sized texture
returns the sentinel magenta `(1, 0, 1)`; otherwise coordinates wrap by
`%` on the unsigned width/height and the byte triple at the computed
offset is normalised to `[0,1]` channels. Real textures always have
`width * height * 3` bytes, so `getD`'s fallback is never reached there. -/
def get (tex : TextureQ) (x y : ℕ) : Vec3 :=
  if tex.width = 0 ∨ tex.height = 0 then ⟨1, 0, 1⟩
  else
    let x := x % tex.width
    let y := y % tex.height
    let uvi := (x + y * tex.width) * 3
    ⟨(tex.pixels.getD uvi 0 : ℚ) / 255,
     (tex.pixels.getD (uvi + 1) 0 : ℚ) / 255,
     (tex.pixels.getD (uvi + 2) 0 : ℚ) / 255⟩

/-- Embeds `Texture::sample` (part_000 lines 99-115): scale to pixel
space, take `floor`, convert to `u32` (see `toU32`), and bilinearly blend
the four fetched texels with the fractional remainders. The neighbour
indices `x + 1`, `y + 1` are `u32` additions, hence the `% 2 ^ 32`. -/
def sample (tex : TextureQ) (u v : ℚ) : Vec3 :=
  let u := u * tex.width
  let v := v * tex.height
  let x := toU32 ⌊u⌋
  let y := toU32 ⌊v⌋
  let ur := u - x
  let vr := v - y
  let uo := 1 - ur
  let vo := 1 - vr
  ((tex.get x y).scale uo + (tex.get ((x + 1) % 2 ^ 32) y).scale ur).scale vo +
    ((tex.get x ((y + 1) % 2 ^ 32)).scale uo +
      (tex.get ((x + 1) % 2 ^ 32) ((y + 1) % 2 ^ 32)).scale ur).scale vr

end TextureQ

/-- Embeds `struct Line` (part_000 lines 134-142): world segment endpoints
(in block units) and per-endpoint texture U coordinates. The texture
pointer is omitted: it is an opaque reference not needed by any claim. -/
structure LineQ where
  a : Vec3
  b : Vec3
  u0 : ℚ
  u1 : ℚ
deriving DecidableEq

/-- Embeds `struct HitInfo` (part_000 lines 144-148) as filled by
`rayLines`. The line pointer is represented by the index of the line in
the scene list; the unused `normal` and the `length` field (a square
root, never read by any caller) are omitted. -/
structure HitInfoQ where
  lineIdx : ℕ
  position : Vec3
  distance : ℚ
  u : ℚ
deriving DecidableEq

/-- Constant `blockSize` (part_000 line 80). -/
def blockSize : ℚ := 8

/-- Constant `maxDepth` (part_000 line 81). -/
def maxDepth : ℚ := 60

/-- Comparison used to order candidate hits; the source sorts with
`a.second.distance < b.second.distance` (part_000 lines 432-434) and takes
the front element, so any order that is nondecreasing in distance yields
the same selected minimum. -/
def distLE (a b : HitInfoQ) : Prop := a.distance ≤ b.distance

instance : DecidableRel distLE := fun _ _ => inferInstanceAs (Decidable (_ ≤ _))

instance : IsTotal HitInfoQ distLE := ⟨fun a b => le_total a.distance b.distance⟩

instance : IsTrans HitInfoQ distLE := ⟨fun _ _ _ h h2 => le_trans h h2⟩

/-- The list of valid hits collected by `RayCastGame::rayLines`
(part_000 lines 416-430): each line is scaled by `blockSize` and queried
with `raySeg`; successes are recorded with their line index. -/
def validHits (lines : List LineQ) (o d : Vec3) : List HitInfoQ :=
  lines.enum.filterMap fun p =>
    match raySeg o d (p.2.a.scale blockSize) (p.2.b.scale blockSize) with
    | some rh => some ⟨p.1, rh.pos, rh.t, rh.u⟩
    | none => none

/-- Embeds `RayCastGame::rayLines` (part_000 lines 413-441): collect the
valid hits, sort them by distance, and return the front one (the source
writes it into the out-parameter and returns `true`; an empty candidate
list returns `false`, embedded as `none`). -/
def rayLines (lines : List LineQ) (o d : Vec3) : Option HitInfoQ :=
  (List.insertionSort distLE (validHits lines o d)).head?

/-- Guard of the per-column draw block (part_000 line 336): pixels of a
column are written only when `rayLines` succeeds and the hit distance is
below `maxDepth`; otherwise the column keeps the clear colour. -/
def columnDrawn (lines : List LineQ) (o d : Vec3) : Bool :=
  match rayLines lines o d with
  | some info => decide (info.distance < maxDepth)
  | none => false

/-- Parameter of the projection of `p` on the infinite line through `a`
and `b`, as computed by `RayCastGame::closestPoint` (part_000 lines
390-397): `t = ap.dot(ab) / ab.dot(ab)`, unclamped. -/
def closestPointT (a b p : Vec3) : ℚ := (p - a).dot (b - a) / (b - a).dot (b - a)

/-- Embeds `RayCastGame::closestPoint` (part_000 lines 390-397):
`a + ab * t` with the unclamped parameter `t`. -/
def closestPoint (a b p : Vec3) : Vec3 := a + (b - a).scale (closestPointT a b p)

/-- Embeds `RayCastGame::circleLines` (part_000 lines 399-411): a position
is blocked when some scene line (scaled by `blockSize`) has its projected
parameter inside `[0, 1]` and its closest point within `radius`. The float
comparison `(p - o).length() < radius` is embedded squared, see
`Vec3.lenSq_lt_sq_iff`. -/
def circleLines (lines : List LineQ) (o : Vec3) (radius : ℚ) : Bool :=
  lines.any fun line =>
    let a := line.a.scale blockSize
    let b := line.b.scale blockSize
    let t := closestPointT a b o
    let p := closestPoint a b o
    decide (0 ≤ t) && decide (t ≤ 1) && decide ((p - o).lenSq < radius ^ 2)

/-- Embeds the forward-move branch of `RayCastGame::onUpdate` (part_000
lines 277-282): integrate `delta = dir * dt * 4`, and if the destination
collides with radius `0.8`, subtract the delta back. The direction vector
`Vec3(viewer.rotation)` is taken as a parameter because it is built with
`cosf`/`sinf`. -/
def moveForward (lines : List LineQ) (pos dir : Vec3) (dt : ℚ) : Vec3 :=
  let delta := (dir.scale dt).scale 4
  let p := pos + delta
  if circleLines lines p (4 / 5) then p - delta else p

/-- Embeds the backward-move branch of `RayCastGame::onUpdate` (part_000
lines 283-289): subtract the delta, and add it back on collision. -/
def moveBackward (lines : List LineQ) (pos dir : Vec3) (dt : ℚ) : Vec3 :=
  let delta := (dir.scale dt).scale 4
  let p := pos - delta
  if circleLines lines p (4 / 5) then p + delta else p

/-- Embeds `Model::Vert` (part_000 lines 151-154). -/
structure VertQ where
  pos : Vec3
  u : ℚ
deriving DecidableEq

/-- Embeds `struct Model` (part_000 lines 150-173): a position, vertices
and a pairwise index list. The texture member is omitted (opaque). -/
structure ModelQ where
  position : Vec3
  vertices : List VertQ
  indices : List ℕ
deriving DecidableEq

/-- Embeds the `Block` constructor (part_000 lines 175-200): 8 vertices
(each rectangle corner duplicated, one copy per incident edge) with
`u1 = w * 2`, `u2 = h * 2`, and indices `0..7` pairing them into the four
outline segments. -/
def Block (x y w h : ℚ) : ModelQ :=
  { position := ⟨x, y, 0⟩
    vertices :=
      [⟨⟨0, 0, 0⟩, 0⟩, ⟨⟨w, 0, 0⟩, w * 2⟩,
       ⟨⟨w, 0, 0⟩, 0⟩, ⟨⟨w, h, 0⟩, h * 2⟩,
       ⟨⟨w, h, 0⟩, 0⟩, ⟨⟨0, h, 0⟩, w * 2⟩,
       ⟨⟨0, h, 0⟩, 0⟩, ⟨⟨0, 0, 0⟩, h * 2⟩]
    indices := [0, 1, 2, 3, 4, 5, 6, 7] }

/-- Pairwise flattening of an index list into scene lines, embedding the
loop of `RayCastGame::onDraw` (part_000 lines 295-307): each index pair
yields a line whose endpoints are the local vertex positions translated by
the model position and whose U range comes from the two vertices. The
index count is always even in this program (`Block` and `Pillar` emit
pairs); a dangling odd index would read out of bounds in the source and is
dropped here. -/
def pairLines (m : ModelQ) : List ℕ → List LineQ
  | i :: j :: rest =>
    let va := m.vertices.getD i ⟨⟨0, 0, 0⟩, 0⟩
    let vb := m.vertices.getD j ⟨⟨0, 0, 0⟩, 0⟩
    ⟨va.pos + m.position, vb.pos + m.position, va.u, vb.u⟩ :: pairLines m rest
  | _ => []

/-- Scene lines produced from one model by the per-frame flattening in
`RayCastGame::onDraw` (part_000 lines 295-307). -/
def flattenModel (m : ModelQ) : List LineQ := pairLines m m.indices

/-- Embeds the angle constructor `Vec3(f32 angle, f32 z = 0.0f)`
(part_000 line 18): `(cos angle, sin angle, z)`. -/
noncomputable def vec3FromAngle (angle z : ℝ) : ℝ × ℝ × ℝ :=
  (Real.cos angle, Real.sin angle, z)

/-- The `norm` out-parameter written by `raySeg` (part_000 line 72). The
source statement `norm = Vec3(-v2.y, v2.x);` supplies only two arguments,
so C++ overload resolution picks the angle constructor
`Vec3(f32 angle, f32 z = 0.0f)` of line 18, not the three-argument
component constructor: the value is `(cos(-v2.y), sin(-v2.y), v2.x)`. -/
noncomputable def raySegNorm (a b : Vec3) : ℝ × ℝ × ℝ :=
  vec3FromAngle (((-(b - a).y : ℚ) : ℝ)) (((b - a).x : ℚ) : ℝ)

/-- Components of a rational vector as a real triple, for comparing
against real-valued source computations. -/
def toR (v : Vec3) : ℝ × ℝ × ℝ := ((v.x : ℝ), (v.y : ℝ), (v.z : ℝ))

/-- Embeds the `rad` macro (part_000 line 12): degrees times `0.0174533`. -/
noncomputable def radR (x : ℝ) : ℝ := x * 0.0174533

/-- Constant `maxDepth` (part_000 line 81) as a real. -/
noncomputable def maxDepthR : ℝ := 60

/-- Embeds the wall-band fog computation of `RayCastGame::onDraw`
(part_000 lines 337 and 342): the perspective distance is
`d = distance * tan(fov / 2)` (`thf`, line 315) and the fog factor is
`1 - d / maxDepth`. -/
noncomputable def wallFogR (thf dist : ℝ) : ℝ := 1 - dist * thf / maxDepthR

/-- The upper clamp of the field of view, `rad(120)`
(part_000 lines 260-262). -/
noncomputable def fovMaxR : ℝ := radR 120

/-- Angle step of the `Pillar` constructor (part_000 lines 207-208):
`segments = 12`, `step = 2 * pi / segments`. -/
noncomputable def pillarStep : ℝ := 2 * Real.pi / 12

/-- Local vertex `k` emitted by the `Pillar` constructor (part_000 lines
213-216): the circle point at angle `k * step` scaled by the radius and
translated by the centre `(x, y)` (the centre is baked into the local
coordinates even though it is also stored as the model position). -/
noncomputable def pillarLocalVert (x y radius : ℝ) (k : ℕ) : ℝ × ℝ :=
  (Real.cos (k * pillarStep) * radius + x, Real.sin (k * pillarStep) * radius + y)

/-- World position of a flattened vertex: local position plus model
position, as in `RayCastGame::onDraw` (part_000 line 300). -/
def flattenPt (p pos : ℝ × ℝ) : ℝ × ℝ := (p.1 + pos.1, p.2 + pos.2)

/-- World-space position of `Pillar` vertex `k` after the per-frame
flattening: the constructor stores `(x, y)` both inside the vertex and as
the model position, so the flattening translates by `(x, y)` twice. -/
noncomputable def pillarWorldVert (x y radius : ℝ) (k : ℕ) : ℝ × ℝ :=
  flattenPt (pillarLocalVert x y radius k) (x, y)

/-- Squared Euclidean distance on the plane. -/
def distSq (p q : ℝ × ℝ) : ℝ := (p.1 - q.1) ^ 2 + (p.2 - q.2) ^ 2

/-- Minimal model of an IEEE `f32` value as produced by a division whose
operands are exact: either a finite value, a signed infinity, or NaN. -/
inductive F32 where
  | fin (q : ℚ)
  | inf (pos : Bool)
  | nan
deriving DecidableEq

/-- IEEE float division with exact finite operands: a nonzero denominator
gives the exact quotient; division of a nonzero numerator by zero gives a
signed infinity, and `0 / 0` gives NaN. -/
def fdiv (n d : ℚ) : F32 :=
  if d ≠ 0 then .fin (n / d)
  else if 0 < n then .inf true
  else if n < 0 then .inf false
  else .nan

/-- IEEE comparison `x >= 0.0f`: false for NaN, true exactly for `+inf`
among infinities. -/
def fge0 : F32 → Bool
  | .fin q => decide (0 ≤ q)
  | .inf b => b
  | .nan => false

/-- IEEE comparison `x <= 1.0f`: false for NaN, true exactly for `-inf`
among infinities. -/
def fle1 : F32 → Bool
  | .fin q => decide (q ≤ 1)
  | .inf b => !b
  | .nan => false

/-- The hit test of `raySeg` (part_000 lines 62-70) under the IEEE model
of the two divisions: returns whether the guard
`t1 >= 0.0 && t2 >= 0.0 && t2 <= 1.0` is taken. -/
def raySegIEEE (o d a b : Vec3) : Bool :=
  let v1 := o - a
  let v2 := b - a
  let v3 : Vec3 := ⟨-d.y, d.x, 0⟩
  let d23 := v2.dot v3
  let t1 := fdiv (v2.cross v1).z d23
  let t2 := fdiv (v1.dot v3) d23
  fge0 t1 && (fge0 t2 && fle1 t2)

/-- Scene lines of the rectangular room `Block(0, 0, 6, 6)` built in
`onSetup` (part_000 line 240), flattened as `onDraw` does: a 48 by 48
world-unit room once scaled by `blockSize`. -/
def roomLines : List LineQ := flattenModel (Block 0 0 6 6)

/-- A single scene segment lying on the world-space x-axis from `(0,0)`
to `(8,0)` once scaled by `blockSize`; used as a concrete collision
obstacle. -/
def floorSeg : LineQ := ⟨⟨0, 0, 0⟩, ⟨1, 0, 0⟩, 0, 0⟩

/-- A concrete 2 by 1 texture: pixel `(0,0)` black, pixel `(1,0)` white. -/
def tex2x1 : TextureQ := ⟨2, 1, [0, 0, 0, 255, 255, 255]⟩

/-- A concrete zero-width texture, as produced by a failed decode
(`stbi_load` returning null leaves `m_width = 0`, part_000 lines 88-97,
130). -/
def texZero : TextureQ := ⟨0, 5, []⟩

/-!  Theorems.  -/

theorem scale_blockSize_ne {a b : Vec3} (hab : a ≠ b) :
    a.scale blockSize ≠ b.scale blockSize := by
  intro hc
  apply hab
  have hx := congrArg Vec3.x hc
  have hy := congrArg Vec3.y hc
  have hz := congrArg Vec3.z hc
  simp only [Vec3.scale_x, Vec3.scale_y, Vec3.scale_z, blockSize] at hx hy hz
  ext <;> linarith

theorem sub_ne_zero_vec {a b : Vec3} (hab : a ≠ b) : b - a ≠ ⟨0, 0, 0⟩ := by
  intro hc
  apply hab
  have hx := congrArg Vec3.x hc
  have hy := congrArg Vec3.y hc
  have hz := congrArg Vec3.z hc
  simp only [Vec3.sub_x, Vec3.sub_y, Vec3.sub_z] at hx hy hz
  ext <;> linarith

theorem dot_self_pos {a b : Vec3} (hab : a ≠ b) : 0 < (b - a).dot (b - a) := by
  rcases lt_or_eq_of_le (Vec3.lenSq_nonneg (b - a)) with h | h
  · exact h
  · exact absurd ((Vec3.lenSq_eq_zero_iff (b - a)).mp h.symm) (sub_ne_zero_vec hab)

/-- C1: for every ray origin and direction and every list of scene lines,
if at least one line yields a valid `raySeg` intersection then `rayLines`
succeeds and the returned `HitInfo` is one of the collected hits with
minimal ray distance among all of them (selection is the head of a
distance-sorted list, hence deterministic); if no line yields a valid
intersection, `rayLines` fails and the column draw guard is not taken, so
no pixel of the column is written and it keeps the clear colour. -/
theorem rayLines_nearest_hit (lines : List LineQ) (o d : Vec3) :
    (validHits lines o d ≠ [] →
      ∃ info, rayLines lines o d = some info ∧ info ∈ validHits lines o d ∧
        ∀ h ∈ validHits lines o d, info.distance ≤ h.distance) ∧
    (validHits lines o d = [] →
      rayLines lines o d = none ∧ columnDrawn lines o d = false) := by
  constructor
  · intro hne
    have hperm := List.perm_insertionSort distLE (validHits lines o d)
    have hsorted := List.sorted_insertionSort distLE (validHits lines o d)
    cases hs : List.insertionSort distLE (validHits lines o d) with
    | nil =>
      rw [hs] at hperm
      exact absurd hperm.symm.eq_nil hne
    | cons info t =>
      rw [hs] at hperm hsorted
      refine ⟨info, ?_, ?_, ?_⟩
      · unfold rayLines
        rw [hs]
        rfl
      · exact hperm.subset (List.mem_cons_self info t)
      · intro h hmem
        have hmem2 : h ∈ info :: t := hperm.symm.subset hmem
        rcases List.mem_cons.mp hmem2 with rfl | hmem3
        · exact le_refl _
        · exact List.rel_of_sorted_cons hsorted h hmem3
  · intro hnil
    constructor
    · unfold rayLines
      rw [hnil]
      rfl
    · unfold columnDrawn rayLines
      rw [hnil]
      rfl

theorem rayLines_nearest_hit_witness :
    validHits roomLines ⟨24, 24, 0⟩ ⟨2, 1, 0⟩ ≠ [] ∧
    (∃ info, rayLines roomLines ⟨24, 24, 0⟩ ⟨2, 1, 0⟩ = some info ∧
      info ∈ validHits roomLines ⟨24, 24, 0⟩ ⟨2, 1, 0⟩ ∧
      ∀ h ∈ validHits roomLines ⟨24, 24, 0⟩ ⟨2, 1, 0⟩, info.distance ≤ h.distance) := by
  have hval : validHits roomLines ⟨24, 24, 0⟩ ⟨2, 1, 0⟩ = [⟨1, ⟨48, 36, 0⟩, 12, 3 / 4⟩] := by
    norm_num [validHits, roomLines, flattenModel, pairLines, Block, raySeg, blockSize,
      List.enum, List.enumFrom, List.filterMap]
  have hne : validHits roomLines ⟨24, 24, 0⟩ ⟨2, 1, 0⟩ ≠ [] := by
    rw [hval]
    simp
  exact ⟨hne, (rayLines_nearest_hit roomLines ⟨24, 24, 0⟩ ⟨2, 1, 0⟩).1 hne⟩

/-- C2 (code bug, evaluated at the failing input): the ray from
`(1/2, -1)` towards `(0, 1)` against the segment `(0,0)` to `(1,0)` hits
with position `(1/2, 0)` (the segment midpoint), ray distance `t = 1`
(the Euclidean distance, since the direction is unit length) and
`u = 1/2`, exactly as the claim states — but the returned normal is
`(cos(-v2.y), sin(-v2.y), v2.x) = (1, 0, 1)`, not the claimed
`perp(v2) = (0, 1, 0)`: the source statement `norm = Vec3(-v2.y, v2.x)`
resolves to the angle constructor `Vec3(f32 angle, f32 z = 0.0f)`. -/
theorem raySeg_normal_constructor_bug :
    raySeg ⟨1 / 2, -1, 0⟩ ⟨0, 1, 0⟩ ⟨0, 0, 0⟩ ⟨1, 0, 0⟩ =
      some ⟨⟨1 / 2, 0, 0⟩, 1, 1 / 2⟩ ∧
    raySegNorm ⟨0, 0, 0⟩ ⟨1, 0, 0⟩ = (1, 0, 1) ∧
    raySegNorm ⟨0, 0, 0⟩ ⟨1, 0, 0⟩ ≠ toR (perpQ ((⟨1, 0, 0⟩ : Vec3) - ⟨0, 0, 0⟩)) := by
  have hnorm : raySegNorm ⟨0, 0, 0⟩ ⟨1, 0, 0⟩ = (1, 0, 1) := by
    norm_num [raySegNorm, vec3FromAngle]
  refine ⟨by norm_num [raySeg], hnorm, ?_⟩
  rw [hnorm]
  norm_num [toR, perpQ, Prod.ext_iff]

/-- C3 counterexample (under exact arithmetic): a ray parallel to a
segment, i.e. with denominator `d23 = v2.dot(perp d) = 0`. The source
performs the two divisions by `d23` unconditionally — there is no
explicit guard — so its exact-arithmetic reading (total division) even
reports a spurious hit here; the compiled float program yields no-hit
only because the `inf`/`NaN` quotients fail the comparisons. This refutes
the claim that the implementation explicitly guards the division. -/
theorem raySeg_unguarded_parallel_reports_hit :
    ((⟨1, 1, 0⟩ : Vec3) - ⟨0, 1, 0⟩).dot (perpQ ⟨1, 0, 0⟩) = 0 ∧
    raySeg ⟨0, 0, 0⟩ ⟨1, 0, 0⟩ ⟨0, 1, 0⟩ ⟨1, 1, 0⟩ ≠ none := by
  constructor
  · norm_num [perpQ]
  · have hval : raySeg ⟨0, 0, 0⟩ ⟨1, 0, 0⟩ ⟨0, 1, 0⟩ ⟨1, 1, 0⟩ =
        some ⟨⟨0, 1, 0⟩, 0, 0⟩ := by
      norm_num [raySeg]
    rw [hval]
    simp

/-- C3 amended: the parallel case `d23 = v2.dot(perp d) = 0` yields
no-hit, but not through an explicit guard — the source divides by the
zero denominator and relies on IEEE semantics: the quotients are signed
infinities or NaN, and every branch of the comparison
`t1 >= 0 && t2 >= 0 && t2 <= 1` fails on them. -/
theorem raySegIEEE_parallel_no_hit (o d a b : Vec3)
    (h : (b - a).dot (perpQ d) = 0) : raySegIEEE o d a b = false := by
  have hd : (b - a).dot ⟨-d.y, d.x, 0⟩ = 0 := h
  have hcase : ∀ n : ℚ, (fge0 (fdiv n 0) && fle1 (fdiv n 0)) = false := by
    intro n
    unfold fdiv
    rw [if_neg (by simp)]
    rcases lt_trichotomy n 0 with hn | hn | hn
    · rw [if_neg (by linarith), if_pos hn]
      rfl
    · rw [if_neg (by linarith), if_neg (by linarith)]
      rfl
    · rw [if_pos hn]
      rfl
  simp only [raySegIEEE]
  rw [hd, hcase, Bool.and_false]

theorem raySegIEEE_parallel_no_hit_witness :
    ((⟨1, 1, 0⟩ : Vec3) - ⟨0, 1, 0⟩).dot (perpQ ⟨1, 0, 0⟩) = 0 ∧
    raySegIEEE ⟨0, 0, 0⟩ ⟨1, 0, 0⟩ ⟨0, 1, 0⟩ ⟨1, 1, 0⟩ = false :=
  ⟨by norm_num [perpQ],
   raySegIEEE_parallel_no_hit ⟨0, 0, 0⟩ ⟨1, 0, 0⟩ ⟨0, 1, 0⟩ ⟨1, 1, 0⟩
     (by norm_num [perpQ])⟩

/-- C4 (code bug, evaluated at the failing input): on the 2 by 1
black/white texture, sampling at `u = 0.99` yields the expected wrapped
blend `(1/50, 1/50, 1/50)`, but sampling at `u = -0.01` does not equal
it: `::floor(-0.02) = -1` converted to `u32` becomes `2^32 - 1`, so the
fractional remainder `ur = -0.02 - (2^32 - 1)` corrupts the bilinear
weights (the result has components around `4.29e9`) instead of wrapping
to the `u = 0.99` sample as floor-based modulo would. -/
theorem sample_negative_wrap_bug :
    TextureQ.sample tex2x1 (99 / 100) 0 = ⟨1 / 50, 1 / 50, 1 / 50⟩ ∧
    TextureQ.sample tex2x1 (-1 / 100) 0 ≠ TextureQ.sample tex2x1 (99 / 100) 0 := by
  have hpos : TextureQ.sample tex2x1 (99 / 100) 0 = ⟨1 / 50, 1 / 50, 1 / 50⟩ := by
    norm_num [TextureQ.sample, TextureQ.get, tex2x1, toU32, List.getD]
  have hneg : TextureQ.sample tex2x1 (-1 / 100) 0 =
      ⟨214748364801 / 50, 214748364801 / 50, 214748364801 / 50⟩ := by
    have htn : (4294967295 : ℤ).toNat = 4294967295 := rfl
    norm_num [TextureQ.sample, TextureQ.get, tex2x1, toU32, List.getD, htn]
  refine ⟨hpos, ?_⟩
  rw [hpos, hneg]
  norm_num

/-- C5 counterexample: with the field of view at its upper clamp
`rad(120)` (inside the clamped range `[rad 20, rad 120]`) and a hit at
raw distance `40`, the cutoff `distance < maxDepth` passes, yet the wall
fog `1 - (distance * tan(fov/2)) / maxDepth` is negative, because the
cutoff bounds the raw distance while the fog uses the perspective
distance `d = distance * tan(fov/2)` and `tan(rad 60) > 1.7`. -/
theorem wallFog_negative_within_fov_range :
    radR 20 ≤ fovMaxR ∧ fovMaxR ≤ radR 120 ∧ (0 : ℝ) ≤ 40 ∧ (40 : ℝ) < maxDepthR ∧
    wallFogR (Real.tan (fovMaxR / 2)) 40 < 0 := by
  refine ⟨by norm_num [radR, fovMaxR], le_refl _, by norm_num,
    by norm_num [maxDepthR], ?_⟩
  have h1 : fovMaxR / 2 = 1.047198 := by
    norm_num [fovMaxR, radR]
  have hlt : Real.pi / 3 < 1.047198 := by
    nlinarith [Real.pi_lt_d6]
  have hlt2 : (1.047198 : ℝ) < Real.pi / 2 := by
    nlinarith [Real.pi_gt_d6]
  have hmono : Real.tan (Real.pi / 3) < Real.tan 1.047198 :=
    Real.tan_lt_tan_of_nonneg_of_lt_pi_div_two (by positivity) hlt2 hlt
  rw [Real.tan_pi_div_three] at hmono
  have hsqrt : (1.7 : ℝ) < Real.sqrt 3 := by
    nlinarith [Real.sq_sqrt (show (0 : ℝ) ≤ 3 by norm_num),
      Real.sqrt_nonneg (3 : ℝ)]
  rw [h1]
  simp only [wallFogR, maxDepthR]
  nlinarith

/-- C5 amended: the wall fog factor of a rendered wall-band column is
non-negative whenever `tan(fov/2) ≤ 1`, i.e. for fields of view up to 90
degrees: then the perspective distance `d = distance * tan(fov/2)` is
bounded by the raw distance, which the `maxDepth` cutoff has already
bounded. For fov in `(90, 120]` degrees the cutoff does not bound `d`
and the fog can be negative (see the counterexample). -/
theorem wallFog_nonneg_of_thf_le_one (thf dist : ℝ) (h0 : 0 ≤ thf) (h1 : thf ≤ 1)
    (_hd0 : 0 ≤ dist) (hd : dist < maxDepthR) : 0 ≤ wallFogR thf dist := by
  simp only [wallFogR, maxDepthR] at *
  nlinarith

theorem wallFog_nonneg_of_thf_le_one_witness :
    (0 : ℝ) ≤ 1 / 2 ∧ (1 / 2 : ℝ) ≤ 1 ∧ (0 : ℝ) ≤ 30 ∧ (30 : ℝ) < maxDepthR ∧
    0 ≤ wallFogR (1 / 2) 30 :=
  ⟨by norm_num, by norm_num, by norm_num, by norm_num [maxDepthR],
   wallFog_nonneg_of_thf_le_one (1 / 2) 30 (by norm_num) (by norm_num) (by norm_num)
     (by norm_num [maxDepthR])⟩

theorem closestPoint_is_min (a b p : Vec3) (hab : a ≠ b) (s : ℚ) :
    (closestPoint a b p - p).lenSq ≤ (a + (b - a).scale s - p).lenSq := by
  have hA : 0 < (b - a).dot (b - a) := dot_self_pos hab
  have key : ∀ t : ℚ, (a + (b - a).scale t - p).lenSq =
      (p - a).lenSq - 2 * ((p - a).dot (b - a)) * t + ((b - a).dot (b - a)) * t ^ 2 := by
    intro t
    simp only [Vec3.lenSq, Vec3.dot, Vec3.add_x, Vec3.add_y, Vec3.add_z,
      Vec3.sub_x, Vec3.sub_y, Vec3.sub_z, Vec3.scale_x, Vec3.scale_y, Vec3.scale_z]
    ring
  rw [closestPoint, closestPointT, key, key]
  set A := (b - a).dot (b - a) with hAdef
  set B := (p - a).dot (b - a) with hBdef
  have expand : (p - a).lenSq - 2 * B * (B / A) + A * (B / A) ^ 2 =
      (p - a).lenSq - B ^ 2 / A := by
    field_simp
    ring
  rw [expand]
  have h2 : 2 * B * s - A * s ^ 2 ≤ B ^ 2 / A := by
    rw [le_div_iff₀ hA]
    nlinarith [sq_nonneg (A * s - B)]
  linarith

/-- C6: the collision check rejects a position `o` exactly when some
scene line, scaled to world units, has its unclamped projection parameter
`t` inside `[0, 1]` and its projected point strictly within `radius` of
`o` (distances compared squared, see `Vec3.lenSq_lt_sq_iff`); a single
segment whose parameter falls outside `[0, 1]` never blocks, no matter
how close its infinite extension passes; and the projected point used is
genuinely the closest point of the infinite line through the segment. -/
theorem circleLines_closest_point_spec (lines : List LineQ) (o : Vec3) (radius : ℚ)
    (hnd : ∀ l ∈ lines, l.a ≠ l.b) :
    (circleLines lines o radius = true ↔
      ∃ l ∈ lines,
        0 ≤ closestPointT (l.a.scale blockSize) (l.b.scale blockSize) o ∧
        closestPointT (l.a.scale blockSize) (l.b.scale blockSize) o ≤ 1 ∧
        (closestPoint (l.a.scale blockSize) (l.b.scale blockSize) o - o).lenSq <
          radius ^ 2) ∧
    (∀ l : LineQ,
      ¬(0 ≤ closestPointT (l.a.scale blockSize) (l.b.scale blockSize) o ∧
        closestPointT (l.a.scale blockSize) (l.b.scale blockSize) o ≤ 1) →
      circleLines [l] o radius = false) ∧
    (∀ l ∈ lines, ∀ s : ℚ,
      (closestPoint (l.a.scale blockSize) (l.b.scale blockSize) o - o).lenSq ≤
        (l.a.scale blockSize +
          (l.b.scale blockSize - l.a.scale blockSize).scale s - o).lenSq) := by
  refine ⟨?_, ?_, ?_⟩
  · simp [circleLines, List.any_eq_true, Bool.and_eq_true, decide_eq_true_eq,
      and_assoc]
  · intro l hnot
    simp only [circleLines, List.any_cons, List.any_nil, Bool.or_false,
      Bool.and_eq_true, decide_eq_true_eq]
    rw [Bool.and_eq_false_iff]
    by_cases h0 : 0 ≤ closestPointT (l.a.scale blockSize) (l.b.scale blockSize) o
    · left
      rw [Bool.and_eq_false_iff]
      right
      simp only [decide_eq_false_iff_not]
      intro h1
      exact hnot ⟨h0, h1⟩
    · left
      rw [Bool.and_eq_false_iff]
      left
      simp only [decide_eq_false_iff_not]
      exact h0
  · intro l hl s
    exact closestPoint_is_min _ _ _ (scale_blockSize_ne (hnd l hl)) s

theorem circleLines_closest_point_spec_witness :
    (∀ l ∈ [floorSeg], l.a ≠ l.b) ∧
    circleLines [floorSeg] ⟨4, 1 / 2, 0⟩ (4 / 5) = true := by
  have hnd : ∀ l ∈ [floorSeg], l.a ≠ l.b := by
    intro l hl
    simp only [List.mem_singleton] at hl
    subst hl
    simp [floorSeg]
  refine ⟨hnd, ?_⟩
  refine (circleLines_closest_point_spec [floorSeg] ⟨4, 1 / 2, 0⟩ (4 / 5) hnd).1.mpr
    ⟨floorSeg, by simp, ?_, ?_, ?_⟩
  · norm_num [closestPointT, floorSeg, blockSize]
  · norm_num [closestPointT, floorSeg, blockSize]
  · norm_num [closestPoint, closestPointT, Vec3.lenSq, floorSeg, blockSize]

/-- C7: when a movement step lands on a colliding position, the update
rolls the displacement back entirely: adding `delta = dir * dt * 4` and
subtracting it again (or subtracting then adding, for backward movement)
returns exactly the starting position — no sliding, no partial movement,
no residual offset. -/
theorem move_collision_rollback (lines : List LineQ) (pos dir : Vec3) (dt : ℚ) :
    (circleLines lines (pos + (dir.scale dt).scale 4) (4 / 5) = true →
      moveForward lines pos dir dt = pos) ∧
    (circleLines lines (pos - (dir.scale dt).scale 4) (4 / 5) = true →
      moveBackward lines pos dir dt = pos) := by
  constructor
  · intro h
    simp only [moveForward, h, if_true]
    ext <;> simp
  · intro h
    simp only [moveBackward, h, if_true]
    ext <;> simp

theorem move_collision_rollback_witness :
    circleLines [floorSeg] ((⟨4, 1, 0⟩ : Vec3) + ((⟨0, -1, 0⟩ : Vec3).scale (1 / 8)).scale 4)
      (4 / 5) = true ∧
    moveForward [floorSeg] ⟨4, 1, 0⟩ ⟨0, -1, 0⟩ (1 / 8) = ⟨4, 1, 0⟩ := by
  have hc : circleLines [floorSeg]
      ((⟨4, 1, 0⟩ : Vec3) + ((⟨0, -1, 0⟩ : Vec3).scale (1 / 8)).scale 4) (4 / 5) = true := by
    norm_num [circleLines, closestPoint, closestPointT, Vec3.lenSq, floorSeg, blockSize]
  exact ⟨hc, (move_collision_rollback [floorSeg] ⟨4, 1, 0⟩ ⟨0, -1, 0⟩ (1 / 8)).1 hc⟩

/-- C8: the rectangle generator `Block(x, y, w, h)` emits exactly 8
vertices and, once flattened, exactly the 4 independent axis-aligned
outline edges at the given origin; every edge starts at `u0 = 0` (each
edge independently UV-mapped, the duplicated corner starting the next
edge has its U reset to 0) and spans `u1 - u0 = 2 * (edge length)`
(stated squared to avoid the square root), and the total perimeter U
coverage is `2 * (w + h) * 2`. -/
theorem block_outline_spec (x y w h : ℚ) :
    (Block x y w h).vertices.length = 8 ∧
    flattenModel (Block x y w h) =
      [⟨⟨x, y, 0⟩, ⟨w + x, y, 0⟩, 0, w * 2⟩,
       ⟨⟨w + x, y, 0⟩, ⟨w + x, h + y, 0⟩, 0, h * 2⟩,
       ⟨⟨w + x, h + y, 0⟩, ⟨x, h + y, 0⟩, 0, w * 2⟩,
       ⟨⟨x, h + y, 0⟩, ⟨x, y, 0⟩, 0, h * 2⟩] ∧
    (∀ l ∈ flattenModel (Block x y w h),
      l.u0 = 0 ∧ (l.u1 - l.u0) ^ 2 = 4 * (l.b - l.a).lenSq) ∧
    ((flattenModel (Block x y w h)).map (fun l => l.u1 - l.u0)).sum =
      2 * (w + h) * 2 := by
  have hflat : flattenModel (Block x y w h) =
      [⟨⟨x, y, 0⟩, ⟨w + x, y, 0⟩, 0, w * 2⟩,
       ⟨⟨w + x, y, 0⟩, ⟨w + x, h + y, 0⟩, 0, h * 2⟩,
       ⟨⟨w + x, h + y, 0⟩, ⟨x, h + y, 0⟩, 0, w * 2⟩,
       ⟨⟨x, h + y, 0⟩, ⟨x, y, 0⟩, 0, h * 2⟩] := by
    simp [flattenModel, pairLines, Block]
  refine ⟨rfl, hflat, ?_, ?_⟩
  · intro l hl
    rw [hflat] at hl
    simp only [List.mem_cons, List.not_mem_nil, or_false] at hl
    rcases hl with rfl | rfl | rfl | rfl
    · exact ⟨rfl, by simp [Vec3.lenSq]; ring⟩
    · exact ⟨rfl, by simp [Vec3.lenSq]; ring⟩
    · exact ⟨rfl, by simp [Vec3.lenSq]; ring⟩
    · exact ⟨rfl, by simp [Vec3.lenSq]; ring⟩
  · rw [hflat]
    simp
    ring

theorem block_outline_spec_witness :
    (Block 0 0 6 6).vertices.length = 8 ∧
    (flattenModel (Block 0 0 6 6)).length = 4 ∧
    ((⟨⟨0, 0, 0⟩, ⟨6, 0, 0⟩, 0, 12⟩ : LineQ).u0 = 0 ∧
      ((⟨⟨0, 0, 0⟩, ⟨6, 0, 0⟩, 0, 12⟩ : LineQ).u1 -
          (⟨⟨0, 0, 0⟩, ⟨6, 0, 0⟩, 0, 12⟩ : LineQ).u0) ^ 2 =
        4 * ((⟨⟨0, 0, 0⟩, ⟨6, 0, 0⟩, 0, 12⟩ : LineQ).b -
            (⟨⟨0, 0, 0⟩, ⟨6, 0, 0⟩, 0, 12⟩ : LineQ).a).lenSq) ∧
    ((flattenModel (Block 0 0 6 6)).map (fun l => l.u1 - l.u0)).sum =
      2 * (6 + 6) * 2 := by
  refine ⟨(block_outline_spec 0 0 6 6).1, ?_, ?_, (block_outline_spec 0 0 6 6).2.2.2⟩
  · rw [(block_outline_spec 0 0 6 6).2.1]
    rfl
  · refine (block_outline_spec 0 0 6 6).2.2.1 _ ?_
    rw [(block_outline_spec 0 0 6 6).2.1]
    norm_num

/-- C9: a texture with zero width or zero height (a failed decode) makes
every pixel fetch return the sentinel magenta `(1, 0, 1)`, and the
bilinear blend of four sentinel values is again the sentinel because the
fractional weights sum to one on each axis — so every sample of such a
texture is exactly `(1, 0, 1)`, for all coordinates, without any
out-of-bounds access. -/
theorem sample_zero_sized_sentinel (tex : TextureQ)
    (hz : tex.width = 0 ∨ tex.height = 0) (u v : ℚ) :
    TextureQ.sample tex u v = ⟨1, 0, 1⟩ := by
  have hget : ∀ x y, tex.get x y = ⟨1, 0, 1⟩ := by
    intro x y
    rcases hz with h | h <;> simp [TextureQ.get, h]
  simp only [TextureQ.sample, hget]
  ext <;> simp

theorem sample_zero_sized_sentinel_witness :
    (texZero.width = 0 ∨ texZero.height = 0) ∧
    TextureQ.sample texZero (7 / 3) (-2) = ⟨1, 0, 1⟩ :=
  ⟨Or.inl rfl, sample_zero_sized_sentinel texZero (Or.inl rfl) (7 / 3) (-2)⟩

/-- C10: every world-space vertex produced by flattening a
`Pillar(x, y, radius)` lies at distance `radius` from `(2x, 2y)` (stated
with squared distances): the constructor bakes the centre into the local
vertex coordinates and also stores it as the model position, so the
per-frame flattening translates by the centre twice. The second conjunct
shows the claim's contrast concretely: for `Pillar(1, 1, 1)`, vertex 0 is
not at distance 1 from the constructor argument `(1, 1)`. -/
theorem pillar_double_translation :
    (∀ (x y radius : ℝ) (k : ℕ),
      distSq (pillarWorldVert x y radius k) (2 * x, 2 * y) = radius ^ 2) ∧
    distSq (pillarWorldVert 1 1 1 0) (1, 1) ≠ 1 ^ 2 := by
  constructor
  · intro x y radius k
    simp only [distSq, pillarWorldVert, pillarLocalVert, flattenPt]
    have hpy := Real.sin_sq_add_cos_sq ((k : ℝ) * pillarStep)
    nlinarith [hpy]
  · simp only [distSq, pillarWorldVert, pillarLocalVert, flattenPt]
    norm_num [Real.cos_zero, Real.sin_zero]

end RayCast
